import Mathlib

/-!
Verification of the skill-scoring and analytics engine of the CoachCall backend
(`src/analytics/service.py`, `src/analytics/utils.py`, `src/analytics/constants.py`).

Modelling conventions, fixed once for the whole file:
* Python floats and `Numeric` columns are modelled as exact rationals (`ℚ`);
  the claims under study are about the algebraic structure of the computations,
  not about binary floating point.
* `round(x, n)` is modelled as rounding `x·10^n` to the nearest integer
  (Mathlib `round`, halves up) divided by `10^n`; none of the concrete values
  appearing in the claims sits on a half, so the tie-breaking mode is irrelevant.
* Timestamps (`completed_at`) are modelled as integers under `Option`
  (`none` models SQL NULL); calendar dates, where the code casts a timestamp
  to a date, are likewise modelled as integers.
* Python dicts keyed by `str(skill_id)` are modelled as association lists keyed
  by the id itself (`str` is injective on ints).
* The `ORDER BY completed_at ASC` issued by `calculate_ema_skill_scores` is
  modelled as a stable sort on the fetched list, so every function below takes
  the raw unordered history as input.
* A returned Python dict is modelled as a function `Nat → Option ℚ`
  (`none` = key absent).
-/

/-- Python `round(x, 2)`: round to 2 decimal places. -/
def round2 (q : ℚ) : ℚ := (round (q * 100) : ℤ) / 100

/-- Python `round(x, 1)`: round to 1 decimal place. -/
def round1 (q : ℚ) : ℚ := (round (q * 10) : ℤ) / 10

/-! ### A stable insertion sort, keyed by a rational-valued key.

Python `sorted(l, key=...)` is a stable ascending sort; `sorted(..., reverse=True)`
is obtained below by negating the key.  The element being inserted is always the
one occurring earliest in the input, so it is placed before every element whose
key is not strictly smaller: ties keep input order. -/

def insAsc (key : α → ℚ) (x : α) : List α → List α
  | [] => [x]
  | y :: ys => if key y < key x then y :: insAsc key x ys else x :: y :: ys

def sortAsc (key : α → ℚ) : List α → List α
  | [] => []
  | x :: xs => insAsc key x (sortAsc key xs)

theorem insAsc_perm (key : α → ℚ) (x : α) (l : List α) :
    (insAsc key x l).Perm (x :: l) := by
  induction l with
  | nil => simp [insAsc]
  | cons y ys ih =>
    simp only [insAsc]
    split
    · exact ((ih.cons y).trans (List.Perm.swap x y ys))
    · exact List.Perm.refl _

theorem sortAsc_perm (key : α → ℚ) (l : List α) : (sortAsc key l).Perm l := by
  induction l with
  | nil => simp [sortAsc]
  | cons x xs ih => exact (insAsc_perm key x (sortAsc key xs)).trans (ih.cons x)

theorem mem_sortAsc (key : α → ℚ) (l : List α) (a : α) :
    a ∈ sortAsc key l ↔ a ∈ l :=
  (sortAsc_perm key l).mem_iff

theorem insAsc_pairwise (key : α → ℚ) (x : α) :
    ∀ l : List α, l.Pairwise (fun a b => key a ≤ key b) →
      (insAsc key x l).Pairwise (fun a b => key a ≤ key b) := by
  intro l
  induction l with
  | nil => intro _; simp [insAsc]
  | cons y ys ih =>
    intro h
    rw [List.pairwise_cons] at h
    obtain ⟨hy, hys⟩ := h
    simp only [insAsc]
    split
    · rename_i hlt
      refine List.Pairwise.cons ?_ (ih hys)
      intro z hz
      rcases List.mem_cons.mp ((insAsc_perm key x ys).mem_iff.mp hz) with hz | hz
      · exact hz ▸ le_of_lt hlt
      · exact hy z hz
    · rename_i hnlt
      refine List.Pairwise.cons ?_ (List.pairwise_cons.mpr ⟨hy, hys⟩)
      intro z hz
      rcases List.mem_cons.mp hz with hz | hz
      · exact hz ▸ le_of_not_lt hnlt
      · exact le_trans (le_of_not_lt hnlt) (hy z hz)

theorem sortAsc_pairwise (key : α → ℚ) (l : List α) :
    (sortAsc key l).Pairwise (fun a b => key a ≤ key b) := by
  induction l with
  | nil => simp [sortAsc]
  | cons x xs ih => exact insAsc_pairwise key x (sortAsc key xs) ih

/-- Inserting an element whose key falls below every key in the list just puts
it in front. -/
theorem insAsc_eq_cons (key : α → ℚ) (x : α) (l : List α)
    (h : ∀ z ∈ l, ¬ key z < key x) : insAsc key x l = x :: l := by
  cases l with
  | nil => rfl
  | cons y ys => simp only [insAsc, if_neg (h y (by simp))]

/-- Sorting a list all of whose keys are equal is the identity. -/
theorem sortAsc_of_const_key (key : α → ℚ) (c : ℚ) (l : List α)
    (h : ∀ a ∈ l, key a = c) : sortAsc key l = l := by
  induction l with
  | nil => rfl
  | cons x xs ih =>
    have hx : key x = c := h x (by simp)
    have hxs : sortAsc key xs = xs := ih fun a ha => h a (List.mem_cons_of_mem _ ha)
    simp only [sortAsc, hxs]
    refine insAsc_eq_cons key x xs fun z hz => ?_
    rw [h z (List.mem_cons_of_mem _ hz), hx]
    exact lt_irrefl c

theorem insAsc_congr_key (key₁ key₂ : α → ℚ) (x : α) (l : List α)
    (hx : key₁ x = key₂ x) (h : ∀ a ∈ l, key₁ a = key₂ a) :
    insAsc key₁ x l = insAsc key₂ x l := by
  induction l with
  | nil => rfl
  | cons y ys ih =>
    have hy : key₁ y = key₂ y := h y (by simp)
    simp only [insAsc, hy, hx, ih fun a ha => h a (List.mem_cons_of_mem _ ha)]

theorem sortAsc_congr_key (key₁ key₂ : α → ℚ) (l : List α)
    (h : ∀ a ∈ l, key₁ a = key₂ a) : sortAsc key₁ l = sortAsc key₂ l := by
  induction l with
  | nil => rfl
  | cons x xs ih =>
    have hxs : ∀ a ∈ xs, key₁ a = key₂ a := fun a ha => h a (List.mem_cons_of_mem _ ha)
    simp only [sortAsc, ih hxs]
    refine insAsc_congr_key key₁ key₂ x _ (h x (by simp)) fun a ha => ?_
    exact h a (List.mem_cons_of_mem _ ((mem_sortAsc key₂ xs a).mp ha))

/-- Filtering a dropped element through an insertion leaves the filter alone. -/
theorem filter_insAsc_neg (key : α → ℚ) (q : α → Bool) (x : α) (l : List α)
    (hx : q x = false) : (insAsc key x l).filter q = l.filter q := by
  induction l with
  | nil => simp [insAsc, hx]
  | cons y ys ih =>
    simp only [insAsc]
    split
    · simp only [List.filter_cons, ih]
    · simp [List.filter_cons, hx]

/-- Filtering a kept element through an insertion into a sorted list commutes
with the insertion. -/
theorem filter_insAsc_pos (key : α → ℚ) (q : α → Bool) (x : α) :
    ∀ l : List α, q x = true → l.Pairwise (fun a b => key a ≤ key b) →
      (insAsc key x l).filter q = insAsc key x (l.filter q) := by
  intro l
  induction l with
  | nil => intro hx _; simp [insAsc, hx]
  | cons y ys ih =>
    intro hx hs
    rw [List.pairwise_cons] at hs
    obtain ⟨hy, hys⟩ := hs
    simp only [insAsc]
    split
    · rename_i hlt
      rw [List.filter_cons]
      cases hqy : q y with
      | true => simp [ih hx hys, List.filter_cons, hqy, insAsc, hlt]
      | false => simpa [hqy] using ih hx hys
    · rename_i hnlt
      rw [List.filter_cons, List.filter_cons]
      cases hqy : q y with
      | true => simp [hx, hqy, insAsc, hnlt]
      | false =>
        have hcons : insAsc key x (List.filter q ys) = x :: List.filter q ys :=
          insAsc_eq_cons key x _ fun z hz hlt2 =>
            hnlt (lt_of_le_of_lt (hy z (List.mem_of_mem_filter hz)) hlt2)
        simp [hx, hqy, hcons]

/-- A stable sort commutes with filtering. -/
theorem sortAsc_filter (key : α → ℚ) (q : α → Bool) (l : List α) :
    sortAsc key (l.filter q) = (sortAsc key l).filter q := by
  induction l with
  | nil => rfl
  | cons x xs ih =>
    rw [List.filter_cons]
    cases hx : q x with
    | true =>
      rw [if_pos rfl]
      simp only [sortAsc, ih,
        filter_insAsc_pos key q x (sortAsc key xs) hx (sortAsc_pairwise key xs)]
    | false =>
      rw [if_neg (by decide)]
      simp only [sortAsc, ih,
        filter_insAsc_neg key q x (sortAsc key xs) hx]

/-! ### First-occurrence deduplication.

A Python dict built by repeated `d[k]...` access (`defaultdict`) lists its keys
in order of first insertion; `dedupFirst` computes that key order from the raw
key sequence. -/

def dedupFirstAux [BEq α] (seen : List α) : List α → List α
  | [] => []
  | x :: xs =>
    if seen.contains x then dedupFirstAux seen xs
    else x :: dedupFirstAux (x :: seen) xs

def dedupFirst [BEq α] (l : List α) : List α := dedupFirstAux [] l

theorem dedupFirstAux_subset [BEq α] (seen : List α) (l : List α) (a : α)
    (h : a ∈ dedupFirstAux seen l) : a ∈ l := by
  induction l generalizing seen with
  | nil => simp [dedupFirstAux] at h
  | cons x xs ih =>
    simp only [dedupFirstAux] at h
    split at h
    · exact List.mem_cons_of_mem _ (ih _ h)
    · rcases List.mem_cons.mp h with h | h
      · exact h ▸ List.mem_cons_self _ _
      · exact List.mem_cons_of_mem _ (ih _ h)

theorem mem_dedupFirstAux [BEq α] [LawfulBEq α] (seen : List α) (l : List α) (a : α)
    (ha : a ∈ l) (hs : a ∉ seen) : a ∈ dedupFirstAux seen l := by
  induction l generalizing seen with
  | nil => cases ha
  | cons x xs ih =>
    simp only [dedupFirstAux]
    rcases List.mem_cons.mp ha with rfl | ha
    · split
      · rename_i hc
        exact absurd (by simpa using hc) hs
      · exact List.mem_cons_self _ _
    · split
      · exact ih _ ha hs
      · rcases eq_or_ne a x with rfl | hne
        · exact List.mem_cons_self _ _
        · refine List.mem_cons_of_mem _ (ih _ ha ?_)
          simp only [List.mem_cons]
          rintro (rfl | h)
          · exact hne rfl
          · exact hs h

theorem mem_dedupFirst [BEq α] [LawfulBEq α] (l : List α) (a : α) :
    a ∈ dedupFirst l ↔ a ∈ l :=
  ⟨dedupFirstAux_subset [] l a, fun h => mem_dedupFirstAux [] l a h (by simp)⟩

/-- When the key sequence has no duplicates, first-occurrence deduplication is
the identity. -/
theorem dedupFirst_of_nodup [BEq α] [LawfulBEq α] (l : List α) (h : l.Nodup) :
    dedupFirst l = l := by
  suffices haux : ∀ seen : List α, (∀ a ∈ l, a ∉ seen) → dedupFirstAux seen l = l by
    exact haux [] (by simp)
  induction l with
  | nil => intro seen _; rfl
  | cons x xs ih =>
    intro seen hseen
    rw [List.nodup_cons] at h
    simp only [dedupFirstAux]
    rw [if_neg (by simpa using hseen x (List.mem_cons_self _ _))]
    rw [ih h.2 (x :: seen) ?_]
    intro a ha
    simp only [List.mem_cons]
    rintro (rfl | hmem)
    · exact h.1 ha
    · exact hseen a (List.mem_cons_of_mem _ ha) hmem

/-- First-occurrence deduplication commutes with filtering, as long as the seen
sets agree on the kept elements. -/
theorem dedupFirstAux_filter [BEq α] [LawfulBEq α] (q : α → Bool) :
    ∀ (l : List α) (seen₁ seen₂ : List α),
      (∀ a, q a = true → (a ∈ seen₁ ↔ a ∈ seen₂)) →
      dedupFirstAux seen₂ (l.filter q) = (dedupFirstAux seen₁ l).filter q := by
  intro l
  induction l with
  | nil => intro seen₁ seen₂ _; rfl
  | cons x xs ih =>
    intro seen₁ seen₂ hagree
    rw [List.filter_cons]
    cases hqx : q x with
    | true =>
      rw [if_pos rfl]
      simp only [dedupFirstAux]
      have hmem : (seen₁.contains x) = (seen₂.contains x) := by
        by_cases hx1 : x ∈ seen₁
        · have hx2 := (hagree x hqx).mp hx1
          simp [hx1, hx2]
        · have hx2 : x ∉ seen₂ := fun hc => hx1 ((hagree x hqx).mpr hc)
          simp [hx1, hx2]
      rw [← hmem]
      split
      · exact ih seen₁ seen₂ hagree
      · rw [List.filter_cons, if_pos (by rw [hqx])]
        refine congrArg (x :: ·) (ih (x :: seen₁) (x :: seen₂) fun a ha => ?_)
        simp only [List.mem_cons]
        rw [hagree a ha]
    | false =>
      rw [if_neg (by decide)]
      simp only [dedupFirstAux]
      split
      · exact ih seen₁ seen₂ hagree
      · rw [List.filter_cons, if_neg (by rw [hqx]; decide)]
        refine ih (x :: seen₁) seen₂ fun a ha => ?_
        simp only [List.mem_cons]
        constructor
        · rintro (rfl | hmem)
          · rw [ha] at hqx; cases hqx
          · exact (hagree a ha).mp hmem
        · intro hmem
          exact Or.inr ((hagree a ha).mpr hmem)

theorem dedupFirst_filter [BEq α] [LawfulBEq α] (q : α → Bool) (l : List α) :
    dedupFirst (l.filter q) = (dedupFirst l).filter q :=
  dedupFirstAux_filter q l [] [] (by simp)

/-! ### Generic fold helpers. -/

/-- Folding a step function that skips one designated element is folding over
the list with that element filtered away. -/
theorem foldl_skip {β : Type _} [BEq α] (f : β → α → β) (s : α) :
    ∀ (l : List α) (b : β),
      l.foldl (fun acc x => if x == s then acc else f acc x) b
        = (l.filter (fun x => x != s)).foldl f b := by
  intro l
  induction l with
  | nil => intro b; rfl
  | cons x xs ih =>
    intro b
    rw [List.foldl_cons, List.filter_cons]
    cases hx : (x == s) with
    | true => simp [bne, hx, ih]
    | false => simp [bne, hx, ih]

/-- Two folds agree when the step functions agree on every list element. -/
theorem foldl_congr_mem {β : Type _} (f g : β → α → β) :
    ∀ (l : List α) (b : β), (∀ acc, ∀ x ∈ l, f acc x = g acc x) →
      l.foldl f b = l.foldl g b := by
  intro l
  induction l with
  | nil => intro b _; rfl
  | cons x xs ih =>
    intro b h
    rw [List.foldl_cons, List.foldl_cons, h b x (List.mem_cons_self _ _)]
    exact ih _ fun acc y hy => h acc y (List.mem_cons_of_mem _ hy)

namespace CoachCall

/-! ## Data model (`src/course/models.py`, restricted to the fields the
analytics core reads). -/

/-- One row of `task_skill_weights`: a task weights a skill. -/
structure TaskSkillWeight where
  skill_id : Nat
  weight : ℚ
deriving DecidableEq

/-- A task, as seen by the analytics core: only its skill weights are read. -/
structure Task where
  skill_weights : List TaskSkillWeight
deriving DecidableEq

/-- One `task_completions` row, restricted to the fields the analytics core
reads.  `completed_at` is nullable; `task` is `none` when the relationship
fails to load; `scores_breakdown` is a nullable JSON map `str(skill_id) →
score`. -/
structure TaskCompletion where
  session_id : Int
  completed_at : Option Int
  task : Option Task
  scores_breakdown : Option (List (Nat × ℚ))
  final_score : ℚ
deriving DecidableEq

/-- Lookup `sb[str(k)]` in a scores-breakdown map. -/
def sbLookup (sb : List (Nat × ℚ)) (k : Nat) : Option ℚ :=
  (sb.find? (fun p => p.1 == k)).map (·.2)

/-! ## The EMA skill-score calculator
(`calculate_ema_skill_scores`, `src/analytics/service.py` lines 241-314). -/

/-- The EMA smoothing factor of `src/analytics/constants.py`. -/
def EMA_ALPHA : ℚ := 0.3

/-- The per-weight accumulation step of `session_skill_avg_data` (lines
291-298): a task-skill weight whose `str(sw.skill_id)` is missing from the
scores breakdown is skipped; a matching one adds `score * weight` and
`weight` to skill `sw.skill_id`; restricted here to the running pair of one
skill `k`. -/
def sw_step (sb : List (Nat × ℚ)) (k : Nat) (acc2 : ℚ × ℚ)
    (sw : TaskSkillWeight) : ℚ × ℚ :=
  match sbLookup sb sw.skill_id with
  | some score =>
    if sw.skill_id = k then (acc2.1 + score * sw.weight, acc2.2 + sw.weight)
    else acc2
  | none => acc2

/-- The contribution of one completion to `session_skill_avg_data` for skill
`k` (lines 288-298): a completion with `not comp.task` or
`not comp.scores_breakdown` (None, or an empty dict) contributes nothing. -/
def session_comp_step (k : Nat) (acc : ℚ × ℚ) (c : TaskCompletion) : ℚ × ℚ :=
  match c.task, c.scores_breakdown with
  | some t, some sb =>
    if sb.isEmpty then acc else t.skill_weights.foldl (sw_step sb k) acc
  | _, _ => acc

def session_skill_totals (comps : List TaskCompletion) (k : Nat) : ℚ × ℚ :=
  comps.foldl (session_comp_step k) (0, 0)

/-- The session-average score of skill `k` over one session's completions
(lines 301-303): defined only when `total_weight > 0`; a skill whose
accumulated weight is not positive contributes no value. -/
def session_skill_avg (comps : List TaskCompletion) (k : Nat) : Option ℚ :=
  let d := session_skill_totals comps k
  if 0 < d.2 then some (d.1 / d.2) else none

/-- The completions actually processed: the query's
`ORDER BY completed_at ASC` (line 252) modelled as a stable sort, and the
`if comp.completed_at` null check of the grouping loop (line 265). -/
def prepared (comps : List TaskCompletion) : List TaskCompletion :=
  sortAsc (fun c => ((c.completed_at.getD 0 : ℤ) : ℚ))
    (comps.filter (fun c => c.completed_at.isSome))

/-- The keys of the `sessions_data` dict in insertion order (lines 263-268):
session ids in order of first appearance. -/
def session_ids_in_order (comps : List TaskCompletion) : List Int :=
  dedupFirst (comps.map (·.session_id))

/-- The completion group of one session (the `completions` list of
`sessions_data[session_id]`). -/
def session_group (comps : List TaskCompletion) (sid : Int) : List TaskCompletion :=
  comps.filter (fun c => c.session_id == sid)

/-- The representative timestamp of a session (lines 267-268): the
`completed_at` of the first completion seen for that session. -/
def session_timestamp (comps : List TaskCompletion) (sid : Int) : Int :=
  match (session_group comps sid).head? with
  | some c => c.completed_at.getD 0
  | none => 0

/-- The sessions in processing order (line 274):
`sorted(sessions_data.items(), key=lambda x: x[1]["timestamp"])`. -/
def sorted_session_ids (comps : List TaskCompletion) : List Int :=
  sortAsc (fun sid => ((session_timestamp comps sid : ℤ) : ℚ))
    (session_ids_in_order comps)

/-- One EMA update (lines 304-312): initialize on first sight, blend with
`EMA_ALPHA` afterwards. -/
def ema_step (old : Option ℚ) (v : ℚ) : ℚ :=
  match old with
  | none => v
  | some s => v * EMA_ALPHA + s * (1 - EMA_ALPHA)

/-- Processing one session group against the running `current_ema_scores`
dict (lines 300-312): every skill whose session average is defined is updated,
every other key is untouched. -/
def ema_update_session (comps : List TaskCompletion) (m : Nat → Option ℚ)
    (sid : Int) : Nat → Option ℚ :=
  fun k =>
    match session_skill_avg (session_group comps sid) k with
    | some v => some (ema_step (m k) v)
    | none => m k

/-- The exclusion test of line 281,
`if exclude_session_id and session_id == exclude_session_id`.  Python
truthiness: an exclusion id of `None` or `0` never matches. -/
def is_excluded (exclude_session_id : Option Int) (sid : Int) : Bool :=
  match exclude_session_id with
  | none => false
  | some e => if e = 0 then false else sid == e

/-- Embedding of `calculate_ema_skill_scores` (lines 241-314): group the athlete's
completions by session, process sessions in chronological order, skip the
excluded session, thread each skill's session averages through the EMA
recurrence, and round the final value of every skill to 2 decimals. -/
def calculate_ema_skill_scores (comps : List TaskCompletion)
    (exclude_session_id : Option Int) : Nat → Option ℚ :=
  let p := prepared comps
  let final :=
    (sorted_session_ids p).foldl
      (fun m sid => if is_excluded exclude_session_id sid then m
                    else ema_update_session p m sid)
      (fun _ => none)
  fun k => (final k).map round2

/-! ### Claim-side definitions for C1: the chronological list of session
averages of one skill, and the EMA recurrence as the specification words it. -/

/-- The session-average values `v1, ..., vn` of skill `k`, in the chronological
session order the calculator uses. -/
def session_averages (comps : List TaskCompletion) (k : Nat) : List ℚ :=
  (sorted_session_ids (prepared comps)).filterMap
    (fun sid => session_skill_avg (session_group (prepared comps) sid) k)

/-- The EMA recurrence exactly as the claim states it: `s1 = v1` (first value
initializes, no blending) and `sk = 0.3*vk + 0.7*s(k-1)` for `k > 1`. -/
def spec_ema : List ℚ → Option ℚ
  | [] => none
  | v :: vs => some (vs.foldl (fun s w => 0.3 * w + 0.7 * s) v)

/-- Threading the EMA update through a list of session averages, starting from
an arbitrary running state. -/
def emaThread (s : Option ℚ) : List ℚ → Option ℚ
  | [] => s
  | v :: vs => emaThread (some (ema_step s v)) vs

theorem foldl_ema_update_apply (p : List TaskCompletion) :
    ∀ (l : List Int) (m : Nat → Option ℚ) (k : Nat),
      (l.foldl (ema_update_session p) m) k
        = emaThread (m k)
            (l.filterMap (fun sid => session_skill_avg (session_group p sid) k)) := by
  intro l
  induction l with
  | nil => intro m k; rfl
  | cons sid rest ih =>
    intro m k
    rw [List.foldl_cons, List.filterMap_cons, ih]
    cases havg : session_skill_avg (session_group p sid) k with
    | none => simp only [emaThread, ema_update_session, havg]
    | some v => simp only [emaThread, ema_update_session, havg]

theorem emaThread_some (s : ℚ) :
    ∀ vs : List ℚ, emaThread (some s) vs
      = some (vs.foldl (fun t w => 0.3 * w + 0.7 * t) s) := by
  intro vs
  induction vs generalizing s with
  | nil => rfl
  | cons v rest ih =>
    rw [emaThread, ih]
    have hstep : ema_step (some s) v = 0.3 * v + 0.7 * s := by
      simp only [ema_step, EMA_ALPHA]
      ring
    rw [hstep, List.foldl_cons]

theorem emaThread_none_eq_spec_ema :
    ∀ vs : List ℚ, emaThread none vs = spec_ema vs := by
  intro vs
  cases vs with
  | nil => rfl
  | cons v rest =>
    rw [emaThread, spec_ema]
    simp only [ema_step]
    exact emaThread_some v rest

/-- With no exclusion requested, the per-skill output of the EMA calculator is
the rounded claim-side fold over that skill's chronological session averages. -/
theorem ema_eq_spec_fold (comps : List TaskCompletion) (k : Nat) :
    calculate_ema_skill_scores comps none k
      = (spec_ema (session_averages comps k)).map round2 := by
  have hfn : (fun (m : Nat → Option ℚ) (sid : Int) =>
      if is_excluded none sid then m else ema_update_session (prepared comps) m sid)
      = ema_update_session (prepared comps) := by
    funext m sid
    rfl
  simp only [calculate_ema_skill_scores, hfn]
  rw [foldl_ema_update_apply, emaThread_none_eq_spec_ema]
  rfl

/-- An exclusion id of 0 is falsy in Python: the calculator behaves as if no
exclusion had been requested. -/
theorem exclude_zero_is_noop (comps : List TaskCompletion) :
    calculate_ema_skill_scores comps (some 0)
      = calculate_ema_skill_scores comps none := by
  have hfn : (fun (m : Nat → Option ℚ) (sid : Int) =>
      if is_excluded (some 0) sid then m
      else ema_update_session (prepared comps) m sid)
      = (fun (m : Nat → Option ℚ) (sid : Int) =>
      if is_excluded none sid then m
      else ema_update_session (prepared comps) m sid) := by
    funext m sid
    simp [is_excluded]
  simp only [calculate_ema_skill_scores, hfn]

/-- The example history behind the regression tests: one skill (id 1), three
sessions at times 1 < 2 < 3 whose session averages for that skill are
80, 90 and 100. -/
def threeSessionHistory : List TaskCompletion :=
  [ ⟨1, some 1, some ⟨[⟨1, 1⟩]⟩, some [(1, 80)], 0⟩,
    ⟨2, some 2, some ⟨[⟨1, 1⟩]⟩, some [(1, 90)], 0⟩,
    ⟨3, some 3, some ⟨[⟨1, 1⟩]⟩, some [(1, 100)], 0⟩ ]

/-- The rounded spec-side fold of the three-session example is 88.1: computed
once here so several results can cite it. -/
theorem session_averages_threeSession :
    session_averages threeSessionHistory 1 = [80, 90, 100] := by
  simp only [session_averages, threeSessionHistory, prepared, sorted_session_ids,
    session_ids_in_order, session_group, session_timestamp, session_skill_avg,
    session_skill_totals, session_comp_step, sw_step, sbLookup, dedupFirst, dedupFirstAux, sortAsc, insAsc,
    List.filter, List.map, List.foldl, List.filterMap, List.find?, List.head?]
  norm_num

/-- C1: for every athlete history whose sessions, in chronological order, yield
session-average values v1, ..., vn for a skill, the EMA calculator returns for
that skill round(sn, 2) where s1 = v1 (first value initializes, no blending)
and sk = 0.3*vk + 0.7*s(k-1) for k > 1; in particular session averages
[80, 90, 100] produce 88.1. -/
theorem C1_ema_recurrence :
    (∀ (comps : List TaskCompletion) (k : Nat),
        calculate_ema_skill_scores comps none k
          = (spec_ema (session_averages comps k)).map round2)
      ∧ session_averages threeSessionHistory 1 = [80, 90, 100]
      ∧ calculate_ema_skill_scores threeSessionHistory none 1 = some 88.1 := by
  refine ⟨ema_eq_spec_fold, session_averages_threeSession, ?_⟩
  rw [ema_eq_spec_fold, session_averages_threeSession]
  simp only [spec_ema, List.foldl, Option.map_some]
  norm_num [round2, round_eq]

/-! ### C2: excluding a session versus removing its events from the history. -/

theorem filter_filter_comm (p q : α → Bool) (l : List α) :
    (l.filter p).filter q = (l.filter q).filter p := by
  induction l with
  | nil => rfl
  | cons x xs ih =>
    rw [List.filter_cons, List.filter_cons]
    cases hp : p x with
    | true =>
      cases hq : q x with
      | true => simp [List.filter_cons, hp, hq, ih]
      | false => simp [List.filter_cons, hp, hq, ih]
    | false =>
      cases hq : q x with
      | true => simp [List.filter_cons, hp, hq, ih]
      | false => simp [List.filter_cons, hp, hq, ih]

/-- Removing one session's events commutes with the null-filtering and the
chronological sort. -/
theorem prepared_filter (q : TaskCompletion → Bool) (comps : List TaskCompletion) :
    prepared (comps.filter q) = (prepared comps).filter q := by
  unfold prepared
  rw [filter_filter_comm, sortAsc_filter]

theorem map_sessionId_filter (s : Int) (l : List TaskCompletion) :
    (l.filter (fun c => c.session_id != s)).map (·.session_id)
      = (l.map (·.session_id)).filter (fun sid => sid != s) := by
  induction l with
  | nil => rfl
  | cons c cs ih =>
    rw [List.filter_cons, List.map_cons, List.filter_cons]
    cases h : (c.session_id != s) with
    | true => simp [h, ih]
    | false => simp [h, ih]

theorem session_ids_filter (s : Int) (p : List TaskCompletion) :
    session_ids_in_order (p.filter (fun c => c.session_id != s))
      = (session_ids_in_order p).filter (fun sid => sid != s) := by
  unfold session_ids_in_order
  rw [map_sessionId_filter, dedupFirst_filter]

theorem session_group_filter (p : List TaskCompletion) (s sid : Int) (h : sid ≠ s) :
    session_group (p.filter (fun c => c.session_id != s)) sid = session_group p sid := by
  unfold session_group
  induction p with
  | nil => rfl
  | cons c cs ih =>
    rw [List.filter_cons]
    by_cases hc : c.session_id = sid
    · have hne : (c.session_id != s) = true := by
        simp [hc, h]
      rw [if_pos hne, List.filter_cons, List.filter_cons, if_pos (by simp [hc]),
        if_pos (by simp [hc]), ih]
    · cases hq : (c.session_id != s) with
      | true =>
        rw [if_pos rfl, List.filter_cons, List.filter_cons,
          if_neg (by simp [hc]), if_neg (by simp [hc]), ih]
      | false =>
        rw [if_neg (by decide), List.filter_cons, if_neg (by simp [hc]), ih]

theorem session_timestamp_filter (p : List TaskCompletion) (s sid : Int) (h : sid ≠ s) :
    session_timestamp (p.filter (fun c => c.session_id != s)) sid
      = session_timestamp p sid := by
  unfold session_timestamp
  rw [session_group_filter p s sid h]

theorem sorted_session_ids_filter (p : List TaskCompletion) (s : Int) :
    sorted_session_ids (p.filter (fun c => c.session_id != s))
      = (sorted_session_ids p).filter (fun sid => sid != s) := by
  unfold sorted_session_ids
  rw [session_ids_filter]
  rw [sortAsc_congr_key
    (fun sid => ((session_timestamp (p.filter (fun c => c.session_id != s)) sid : ℤ) : ℚ))
    (fun sid => ((session_timestamp p sid : ℤ) : ℚ)) _ ?_]
  · rw [sortAsc_filter]
  · intro sid hsid
    have hne : sid ≠ s := by
      have := (List.mem_filter.mp hsid).2
      simpa using this
    exact congrArg (fun t : ℤ => (t : ℚ)) (session_timestamp_filter p s sid hne)

/-- Excluding a nonzero session id from the EMA computation is the same as
deleting that session's completions from the input history. -/
theorem ema_exclusion_removes_session (comps : List TaskCompletion) (s : Int)
    (hs : s ≠ 0) (k : Nat) :
    calculate_ema_skill_scores comps (some s) k
      = calculate_ema_skill_scores (comps.filter (fun c => c.session_id != s)) none k := by
  have hfn1 : (fun (m : Nat → Option ℚ) (sid : Int) =>
      if is_excluded (some s) sid then m
      else ema_update_session (prepared comps) m sid)
      = (fun (m : Nat → Option ℚ) (sid : Int) =>
      if sid == s then m else ema_update_session (prepared comps) m sid) := by
    funext m sid
    simp only [is_excluded, if_neg hs]
  have hfn2 : (fun (m : Nat → Option ℚ) (sid : Int) =>
      if is_excluded none sid then m
      else ema_update_session (prepared (comps.filter (fun c => c.session_id != s))) m sid)
      = ema_update_session (prepared (comps.filter (fun c => c.session_id != s))) := by
    funext m sid
    rfl
  simp only [calculate_ema_skill_scores, hfn1, hfn2]
  rw [foldl_skip, prepared_filter, sorted_session_ids_filter]
  have hcongr :
      ((sorted_session_ids (prepared comps)).filter (fun sid => sid != s)).foldl
          (ema_update_session (prepared comps)) (fun _ => none)
        = ((sorted_session_ids (prepared comps)).filter (fun sid => sid != s)).foldl
          (ema_update_session ((prepared comps).filter (fun c => c.session_id != s)))
          (fun _ => none) := by
    refine foldl_congr_mem _ _ _ _ fun acc sid hsid => ?_
    have hne : sid ≠ s := by
      have := (List.mem_filter.mp hsid).2
      simpa using this
    funext k2
    unfold ema_update_session
    rw [session_group_filter (prepared comps) s sid hne]
  rw [hcongr]

/-- A history whose first session has id 0: sessions 0, 1, 2 at times
1 < 2 < 3 with session averages 80, 90, 100 for skill 1. -/
def zeroSessionHistory : List TaskCompletion :=
  [ ⟨0, some 1, some ⟨[⟨1, 1⟩]⟩, some [(1, 80)], 0⟩,
    ⟨1, some 2, some ⟨[⟨1, 1⟩]⟩, some [(1, 90)], 0⟩,
    ⟨2, some 3, some ⟨[⟨1, 1⟩]⟩, some [(1, 100)], 0⟩ ]

/-- A history for the exclusion tests: sessions 1, 2, 3 at times 1 < 2 < 3;
skill 1 has session averages 80, 90, 100, and skill 2 appears only in
session 2. -/
def excludeDemoHistory : List TaskCompletion :=
  [ ⟨1, some 1, some ⟨[⟨1, 1⟩]⟩, some [(1, 80)], 0⟩,
    ⟨2, some 2, some ⟨[⟨1, 1⟩, ⟨2, 1⟩]⟩, some [(1, 90), (2, 50)], 0⟩,
    ⟨3, some 3, some ⟨[⟨1, 1⟩]⟩, some [(1, 100)], 0⟩ ]

/-- C2 counterexample: for a session whose id is 0, the Python truthiness test
`if exclude_session_id and ...` never fires, so excluding that session is NOT
the same as removing its events: on `zeroSessionHistory` the exclusion call
still returns the full-history EMA 88.1, while the history with session 0
removed yields 93.0. -/
theorem C2_counterexample_session_zero :
    calculate_ema_skill_scores zeroSessionHistory (some 0) 1 = some 88.1
    ∧ calculate_ema_skill_scores
        (zeroSessionHistory.filter (fun c => c.session_id != 0)) none 1 = some 93.0
    ∧ (88.1 : ℚ) ≠ 93.0 := by
  have hfilt : zeroSessionHistory.filter (fun c => c.session_id != 0)
      = [ ⟨1, some 2, some ⟨[⟨1, 1⟩]⟩, some [(1, 90)], 0⟩,
          ⟨2, some 3, some ⟨[⟨1, 1⟩]⟩, some [(1, 100)], 0⟩ ] := by
    simp [zeroSessionHistory]
  refine ⟨?_, ?_, by norm_num⟩
  · rw [exclude_zero_is_noop, ema_eq_spec_fold]
    have havg : session_averages zeroSessionHistory 1 = [80, 90, 100] := by
      simp only [session_averages, zeroSessionHistory, prepared, sorted_session_ids,
        session_ids_in_order, session_group, session_timestamp, session_skill_avg,
        session_skill_totals, session_comp_step, sw_step, sbLookup, dedupFirst, dedupFirstAux, sortAsc, insAsc,
        List.filter, List.map, List.foldl, List.filterMap, List.find?, List.head?]
      norm_num
    rw [havg]
    simp only [spec_ema, List.foldl, Option.map_some]
    norm_num [round2, round_eq]
  · rw [hfilt, ema_eq_spec_fold]
    have havg : session_averages
        [ (⟨1, some 2, some ⟨[⟨1, 1⟩]⟩, some [(1, 90)], 0⟩ : TaskCompletion),
          ⟨2, some 3, some ⟨[⟨1, 1⟩]⟩, some [(1, 100)], 0⟩ ] 1 = [90, 100] := by
      simp only [session_averages, prepared, sorted_session_ids,
        session_ids_in_order, session_group, session_timestamp, session_skill_avg,
        session_skill_totals, session_comp_step, sw_step, sbLookup, dedupFirst, dedupFirstAux, sortAsc, insAsc,
        List.filter, List.map, List.foldl, List.filterMap, List.find?, List.head?]
      norm_num
    rw [havg]
    simp only [spec_ema, List.foldl, Option.map_some]
    norm_num [round2, round_eq]

/-- C2 (amended): for every athlete history and every NONZERO session id s,
calling the EMA calculator with exclude_session_id = s returns exactly the map
the calculator returns, with no exclusion, on the history with session s's
events removed (Python truthiness makes an exclusion id of 0 a no-op);
consequently a skill appearing only in session s is absent from the result
(not mapped to zero), and excluding the middle session of averages
[80, 90, 100] yields 86.0. -/
theorem C2_exclusion_equals_removal :
    (∀ (comps : List TaskCompletion) (s : Int), s ≠ 0 →
      ∀ k : Nat, calculate_ema_skill_scores comps (some s) k
        = calculate_ema_skill_scores
            (comps.filter (fun c => c.session_id != s)) none k)
    ∧ calculate_ema_skill_scores excludeDemoHistory (some 2) 2 = none
    ∧ calculate_ema_skill_scores excludeDemoHistory (some 2) 1 = some 86.0 := by
  have hfilt : excludeDemoHistory.filter (fun c => c.session_id != 2)
      = [ ⟨1, some 1, some ⟨[⟨1, 1⟩]⟩, some [(1, 80)], 0⟩,
          ⟨3, some 3, some ⟨[⟨1, 1⟩]⟩, some [(1, 100)], 0⟩ ] := by
    simp [excludeDemoHistory]
  refine ⟨fun comps s hs k => ema_exclusion_removes_session comps s hs k, ?_, ?_⟩
  · rw [ema_exclusion_removes_session excludeDemoHistory 2 (by norm_num) 2,
      hfilt, ema_eq_spec_fold]
    have havg : session_averages
        [ (⟨1, some 1, some ⟨[⟨1, 1⟩]⟩, some [(1, 80)], 0⟩ : TaskCompletion),
          ⟨3, some 3, some ⟨[⟨1, 1⟩]⟩, some [(1, 100)], 0⟩ ] 2 = [] := by
      simp only [session_averages, prepared, sorted_session_ids,
        session_ids_in_order, session_group, session_timestamp, session_skill_avg,
        session_skill_totals, session_comp_step, sw_step, sbLookup, dedupFirst, dedupFirstAux, sortAsc, insAsc,
        List.filter, List.map, List.foldl, List.filterMap, List.find?, List.head?]
      norm_num
    rw [havg]
    rfl
  · rw [ema_exclusion_removes_session excludeDemoHistory 2 (by norm_num) 1,
      hfilt, ema_eq_spec_fold]
    have havg : session_averages
        [ (⟨1, some 1, some ⟨[⟨1, 1⟩]⟩, some [(1, 80)], 0⟩ : TaskCompletion),
          ⟨3, some 3, some ⟨[⟨1, 1⟩]⟩, some [(1, 100)], 0⟩ ] 1 = [80, 100] := by
      simp only [session_averages, prepared, sorted_session_ids,
        session_ids_in_order, session_group, session_timestamp, session_skill_avg,
        session_skill_totals, session_comp_step, sw_step, sbLookup, dedupFirst, dedupFirstAux, sortAsc, insAsc,
        List.filter, List.map, List.foldl, List.filterMap, List.find?, List.head?]
      norm_num
    rw [havg]
    simp only [spec_ema, List.foldl, Option.map_some]
    norm_num [round2, round_eq]

/-- Closed witness for the amended C2: excluding session 3 of the demo history
coincides with removing its events. -/
theorem C2_exclusion_equals_removal_witness :
    calculate_ema_skill_scores excludeDemoHistory (some 3) 1
      = calculate_ema_skill_scores
          (excludeDemoHistory.filter (fun c => c.session_id != 3)) none 1 :=
  C2_exclusion_equals_removal.1 excludeDemoHistory 3 (by norm_num) 1

/-! ### C3: the session grouping invariants. -/

/-- Every completion surviving the null filter and the sort has a timestamp. -/
theorem prepared_isSome (comps : List TaskCompletion) :
    ∀ c ∈ prepared comps, c.completed_at.isSome := by
  intro c hc
  unfold prepared at hc
  have := (mem_sortAsc _ _ c).mp hc
  exact (List.mem_filter.mp this).2

/-- The prepared history is sorted by timestamp. -/
theorem prepared_sorted (comps : List TaskCompletion) :
    (prepared comps).Pairwise
      (fun a b => ((a.completed_at.getD 0 : ℤ) : ℚ) ≤ ((b.completed_at.getD 0 : ℤ) : ℚ)) :=
  sortAsc_pairwise _ _

/-- A session id recorded by the grouping loop has a nonempty group. -/
theorem session_group_ne_nil (p : List TaskCompletion) (sid : Int)
    (hsid : sid ∈ session_ids_in_order p) : session_group p sid ≠ [] := by
  unfold session_ids_in_order at hsid
  have hmem := (mem_dedupFirst _ _).mp hsid
  obtain ⟨c, hc, hcs⟩ := List.mem_map.mp hmem
  have : c ∈ session_group p sid := by
    unfold session_group
    exact List.mem_filter.mpr ⟨hc, by simp [hcs]⟩
  intro hnil
  rw [hnil] at this
  cases this

/-- C3: for every input sequence of evaluation events, in any order (events
with null occurred_at discarded first), the session grouping step of the EMA
calculator assigns each session group a representative timestamp equal to the
minimum occurred_at among that session's events (attained, and a lower bound),
and processes groups in ascending order of that timestamp. -/
theorem C3_session_grouping (comps : List TaskCompletion) :
    (∀ sid ∈ session_ids_in_order (prepared comps),
      (∃ c ∈ session_group (prepared comps) sid,
          c.completed_at = some (session_timestamp (prepared comps) sid))
      ∧ ∀ c ∈ session_group (prepared comps) sid, ∀ t : ℤ,
          c.completed_at = some t → session_timestamp (prepared comps) sid ≤ t)
    ∧ ((sorted_session_ids (prepared comps)).map
        (session_timestamp (prepared comps))).Pairwise (· ≤ ·) := by
  constructor
  · intro sid hsid
    have hne := session_group_ne_nil (prepared comps) sid hsid
    have hsub : List.Sublist (session_group (prepared comps) sid) (prepared comps) :=
      List.filter_sublist _
    have hsorted := (prepared_sorted comps).sublist hsub
    have hsome : ∀ c ∈ session_group (prepared comps) sid, c.completed_at.isSome :=
      fun c hc => prepared_isSome comps c (hsub.subset hc)
    cases hgrp : session_group (prepared comps) sid with
    | nil => exact absurd hgrp hne
    | cons c0 rest =>
      have hts : session_timestamp (prepared comps) sid = c0.completed_at.getD 0 := by
        unfold session_timestamp
        rw [hgrp]
        rfl
      constructor
      · refine ⟨c0, List.mem_cons_self _ _, ?_⟩
        have h0 : c0.completed_at.isSome := by
          refine hsome c0 ?_
          rw [hgrp]
          exact List.mem_cons_self _ _
        cases hc0 : c0.completed_at with
        | none => rw [hc0] at h0; cases h0
        | some t => rw [hts, hc0, Option.getD_some]
      · intro c hc t hct
        rw [hgrp] at hsorted
        rcases List.mem_cons.mp hc with rfl | hc
        · rw [hts, hct, Option.getD_some]
        · have h2 := (List.pairwise_cons.mp hsorted).1 c hc
          rw [hct, Option.getD_some] at h2
          rw [hts]
          exact_mod_cast h2
  · rw [List.pairwise_map]
    have h := sortAsc_pairwise
      (fun sid => ((session_timestamp (prepared comps) sid : ℤ) : ℚ))
      (session_ids_in_order (prepared comps))
    unfold sorted_session_ids
    refine h.imp ?_
    intro a b hab
    exact_mod_cast hab

/-- Closed witness for C3: on the three-session history, session 1's
representative timestamp is attained by one of its events. -/
theorem C3_session_grouping_witness :
    ∃ c ∈ session_group (prepared threeSessionHistory) 1,
      c.completed_at = some (session_timestamp (prepared threeSessionHistory) 1) := by
  refine ((C3_session_grouping threeSessionHistory).1 1 ?_).1
  simp only [threeSessionHistory, prepared, session_ids_in_order,
    dedupFirst, dedupFirstAux, sortAsc, insAsc, List.filter, List.map]
  norm_num

/-! ## Period-over-period percent change
(`_calculate_change_percent`, `src/analytics/service.py` lines 341-346, and the
week-change portion of `calculate_weekly_insights`, `src/analytics/utils.py`
lines 26-33). -/

/-- The `_calculate_change_percent` helper (service.py lines 341-346); the
leading underscore of the Python name is dropped.  `previous` is `Option`
because the Python function checks `previous is None`. -/
def calculate_change_percent (current : Int) (previous : Option Int) : Option ℚ :=
  match previous with
  | none => none
  | some p =>
    if p = 0 then (if 0 < current then some 100 else some 0)
    else some (round1 ((((current : ℚ) - (p : ℚ)) / (p : ℚ)) * 100))

/-- The `week_change` computation of `calculate_weekly_insights` (utils.py
lines 26-33): `week_change` stays `None` unless the previous count is known
and positive, or is zero with a positive current count. -/
def weekly_week_change (week_count : Int) (prev_week_count : Option Int) : Option ℚ :=
  match prev_week_count with
  | none => none
  | some p =>
    if 0 < p then some (round1 ((((week_count : ℚ) - (p : ℚ)) / (p : ℚ)) * 100))
    else if p = 0 ∧ 0 < week_count then some 100
    else none

/-- C4 counterexample: the claim says every percent-change computation maps
previous = 0 and current = 0 to 0.0, but the weekly-insights computation
returns None there, while `_calculate_change_percent` returns 0.0. -/
theorem C4_counterexample_weekly_zero_zero :
    weekly_week_change 0 (some 0) = none
    ∧ calculate_change_percent 0 (some 0) = some 0
    ∧ (none : Option ℚ) ≠ some 0 := by
  refine ⟨by decide, by decide, by decide⟩

/-- C4 (amended): both percent-change computations satisfy previous = None →
None, previous = 0 with current > 0 → 100.0, and positive previous → the
rounded formula (current − previous)/previous × 100; for previous = 0 and
current = 0, `_calculate_change_percent` returns 0.0 but the weekly-insights
computation returns None; the regression value percent_change(150, 100) = 50.0
holds. -/
theorem C4_percent_change_cases :
    (∀ current : Int, calculate_change_percent current none = none)
    ∧ (∀ current : Int, 0 < current → calculate_change_percent current (some 0) = some 100)
    ∧ calculate_change_percent 0 (some 0) = some 0
    ∧ (∀ current p : Int, p ≠ 0 →
        calculate_change_percent current (some p)
          = some (round1 ((((current : ℚ) - (p : ℚ)) / (p : ℚ)) * 100)))
    ∧ (∀ week : Int, weekly_week_change week none = none)
    ∧ (∀ week : Int, 0 < week → weekly_week_change week (some 0) = some 100)
    ∧ weekly_week_change 0 (some 0) = none
    ∧ (∀ week p : Int, 0 < p →
        weekly_week_change week (some p)
          = some (round1 ((((week : ℚ) - (p : ℚ)) / (p : ℚ)) * 100)))
    ∧ calculate_change_percent 150 (some 100) = some 50 := by
  refine ⟨fun _ => rfl, ?_, by decide, ?_, fun _ => rfl, ?_, by decide, ?_, ?_⟩
  · intro current hc
    simp [calculate_change_percent, hc]
  · intro current p hp
    simp [calculate_change_percent, hp]
  · intro week hw
    simp [weekly_week_change, hw, lt_irrefl]
  · intro week p hp
    simp [weekly_week_change, hp]
  · simp only [calculate_change_percent]
    norm_num [round1, round_eq]

/-- Closed witness for C4: the growth-from-zero and formula cases at concrete
inputs. -/
theorem C4_percent_change_cases_witness :
    calculate_change_percent 50 (some 0) = some 100
    ∧ weekly_week_change 7 (some 0) = some 100 :=
  ⟨C4_percent_change_cases.2.1 50 (by decide),
   C4_percent_change_cases.2.2.2.2.2.1 7 (by decide)⟩

/-! ## The motivational-highlight selector
(`_generate_motivational_highlight`, `src/analytics/service.py` lines 643-692)
and the growth-trend classifier (`_get_engagement_stats`, lines 486-511). -/

/-- The `GrowthInsight` schema: a trend classification paired with its fixed
narrative string. -/
structure GrowthInsight where
  trend_type : String
  narrative : String
deriving DecidableEq

/-- The `type` discriminator of the four `MotivationalHighlight` values the
selector can build. -/
inductive HighlightType
  | HIGH_IMPACT
  | TEAM_GROWTH
  | SKILL_BOOST
  | DEFAULT
deriving DecidableEq

/-- The fields `_generate_motivational_highlight` reads from its three
arguments: `activity.sessions_conducted_month.change_percent`,
`activity.sessions_conducted_month.current`, `engagement.growth_insight` and
`skill_stats.athletes_improved_percent`. -/
structure HighlightInputs where
  sessions_change_percent : Option ℚ
  sessions_current : Int
  growth_insight : Option GrowthInsight
  athletes_improved_percent : ℚ
deriving DecidableEq

/-- Condition (1), lines 648-649:
`sessions_change is not None and sessions_change > 20`. -/
def sessions_change_high (a : HighlightInputs) : Bool :=
  match a.sessions_change_percent with
  | some ch => decide (20 < ch)
  | none => false

/-- Condition (2), lines 659-662:
`engagement.growth_insight and engagement.growth_insight.trend_type == "accelerating"`. -/
def growth_accelerating (a : HighlightInputs) : Bool :=
  match a.growth_insight with
  | some gi => gi.trend_type == "accelerating"
  | none => false

/-- Embedding of `_generate_motivational_highlight` (lines 643-692), reduced to the `type`
discriminator of the returned message; the leading underscore of the Python
name is dropped.  Condition (3), lines 674-677, is
`current > 10 and athletes_improved_percent > 50` - both strict. -/
def generate_motivational_highlight (a : HighlightInputs) : HighlightType :=
  if sessions_change_high a then .HIGH_IMPACT
  else if growth_accelerating a then .TEAM_GROWTH
  else if 10 < a.sessions_current ∧ 50 < a.athletes_improved_percent then .SKILL_BOOST
  else .DEFAULT

/-- A first-match rule table: conditions are evaluated in order and the first
match wins; the last component is the default. -/
def first_match (rules : List ((HighlightInputs → Bool) × HighlightType))
    (dflt : HighlightType) (a : HighlightInputs) : HighlightType :=
  match rules with
  | [] => dflt
  | (p, t) :: rest => if p a then t else first_match rest dflt a

/-- The selector's cascade as an ordered rule table, with the corrected
condition (3): strictly more than 10 sessions AND strictly more than 50
percent improved. -/
def highlight_rules : List ((HighlightInputs → Bool) × HighlightType) :=
  [ (sessions_change_high, .HIGH_IMPACT),
    (growth_accelerating, .TEAM_GROWTH),
    (fun a => decide (10 < a.sessions_current ∧ 50 < a.athletes_improved_percent),
      .SKILL_BOOST) ]

/-- The cascade as claim C5 words it, differing from the code only in
condition (3): AT LEAST 50 percent of the cohort showing improvement. -/
def claim_highlight_cascade (a : HighlightInputs) : HighlightType :=
  if sessions_change_high a then .HIGH_IMPACT
  else if growth_accelerating a then .TEAM_GROWTH
  else if 10 < a.sessions_current ∧ 50 ≤ a.athletes_improved_percent then .SKILL_BOOST
  else .DEFAULT

/-- C5 counterexample: at exactly 50 percent improvement (with more than 10
sessions and conditions (1)-(2) false) the code returns the default message,
while the claim's cascade, whose condition (3) asks for at least 50 percent,
selects the skill-boost message. -/
theorem C5_counterexample_exactly_fifty :
    generate_motivational_highlight ⟨none, 11, none, 50⟩ = HighlightType.DEFAULT
    ∧ claim_highlight_cascade ⟨none, 11, none, 50⟩ = HighlightType.SKILL_BOOST
    ∧ HighlightType.DEFAULT ≠ HighlightType.SKILL_BOOST := by
  refine ⟨?_, ?_, by decide⟩
  · simp [generate_motivational_highlight, sessions_change_high, growth_accelerating]
  · simp [claim_highlight_cascade, sessions_change_high, growth_accelerating]

/-- C5 (amended): the motivational highlight selector always returns exactly
one message: the first matching condition in the fixed order (1) session-count
growth percent > 20, (2) growth-trend classification equals "accelerating",
(3) sessions this month > 10 AND STRICTLY MORE than 50 percent of the cohort
showing improvement, and (4) otherwise the default neutral message. -/
theorem C5_highlight_first_match :
    ∀ a : HighlightInputs,
      generate_motivational_highlight a
        = first_match highlight_rules HighlightType.DEFAULT a := by
  intro a
  simp only [generate_motivational_highlight, first_match, highlight_rules,
    decide_eq_true_eq]

/-- The growth-trend classifier of `_get_engagement_stats` (service.py lines
486-511): classify from the monthly new-athlete counts m1 (most recent), m2,
m3 and pair the classification with its fixed narrative. -/
def growth_insight_of (m1 m2 m3 : Nat) : GrowthInsight :=
  if 0 < m2 ∨ 0 < m3 then
    let change_recent : Int := (m1 : Int) - (m2 : Int)
    let change_prior : Int := (m2 : Int) - (m3 : Int)
    if change_prior < change_recent then
      ⟨"accelerating", "Your team\x27s growth rate is picking up steam. Great work!"⟩
    else if change_recent < change_prior then
      ⟨"slowing", "Growth has slowed recently. A good time to focus on recruitment."⟩
    else
      ⟨"steady", "You\x27re maintaining a consistent rate of new athlete sign-ups."⟩
  else
    ⟨"stable", "Track athlete sign-ups over time to see trends here."⟩

/-- C8: for all monthly new-individual counts m1 (most recent), m2, m3: if
m2 = 0 and m3 = 0 the growth trend is classified "stable" (even if m1 > 0);
otherwise, with delta_recent = m1 − m2 and delta_prior = m2 − m3, the
classification is "accelerating" when delta_recent > delta_prior, "slowing"
when delta_recent < delta_prior, and "steady" when they are equal, each paired
with its fixed narrative string; including the four concrete classifications
of the spec. -/
theorem C8_growth_classification :
    (∀ m1 m2 m3 : Nat, m2 = 0 → m3 = 0 →
      growth_insight_of m1 m2 m3
        = ⟨"stable", "Track athlete sign-ups over time to see trends here."⟩)
    ∧ (∀ m1 m2 m3 : Nat, ¬(m2 = 0 ∧ m3 = 0) →
        ((m2 : Int) - (m3 : Int) < (m1 : Int) - (m2 : Int) →
          growth_insight_of m1 m2 m3
            = ⟨"accelerating",
                "Your team\x27s growth rate is picking up steam. Great work!"⟩)
        ∧ ((m1 : Int) - (m2 : Int) < (m2 : Int) - (m3 : Int) →
          growth_insight_of m1 m2 m3
            = ⟨"slowing",
                "Growth has slowed recently. A good time to focus on recruitment."⟩)
        ∧ ((m1 : Int) - (m2 : Int) = (m2 : Int) - (m3 : Int) →
          growth_insight_of m1 m2 m3
            = ⟨"steady",
                "You\x27re maintaining a consistent rate of new athlete sign-ups."⟩))
    ∧ growth_insight_of 10 5 2
        = ⟨"accelerating", "Your team\x27s growth rate is picking up steam. Great work!"⟩
    ∧ growth_insight_of 2 8 3
        = ⟨"slowing", "Growth has slowed recently. A good time to focus on recruitment."⟩
    ∧ growth_insight_of 5 5 5
        = ⟨"steady", "You\x27re maintaining a consistent rate of new athlete sign-ups."⟩
    ∧ growth_insight_of 7 0 0
        = ⟨"stable", "Track athlete sign-ups over time to see trends here."⟩ := by
  refine ⟨?_, ?_, by decide, by decide, by decide, by decide⟩
  · intro m1 m2 m3 h2 h3
    subst h2
    subst h3
    simp [growth_insight_of]
  · intro m1 m2 m3 hne
    have hcond : 0 < m2 ∨ 0 < m3 := by omega
    refine ⟨?_, ?_, ?_⟩
    · intro hlt
      simp only [growth_insight_of, if_pos hcond, if_pos hlt]
    · intro hlt
      have hnlt : ¬((m2 : Int) - (m3 : Int) < (m1 : Int) - (m2 : Int)) := by omega
      simp only [growth_insight_of, if_pos hcond, if_neg hnlt, if_pos hlt]
    · intro heq
      have hnlt : ¬((m2 : Int) - (m3 : Int) < (m1 : Int) - (m2 : Int)) := by omega
      have hnlt2 : ¬((m1 : Int) - (m2 : Int) < (m2 : Int) - (m3 : Int)) := by omega
      simp only [growth_insight_of, if_pos hcond, if_neg hnlt, if_neg hnlt2]

/-- Closed witness for C8: concrete instances of the quantified parts. -/
theorem C8_growth_classification_witness :
    growth_insight_of 4 0 0
      = ⟨"stable", "Track athlete sign-ups over time to see trends here."⟩
    ∧ growth_insight_of 9 4 1
      = ⟨"accelerating", "Your team\x27s growth rate is picking up steam. Great work!"⟩ :=
  ⟨C8_growth_classification.1 4 0 0 rfl rfl,
   (C8_growth_classification.2.1 9 4 1 (by omega)).1 (by decide)⟩

/-! ## The day-one / current progression report
(`get_athlete_skill_progression`, `src/analytics/service.py` lines 150-238,
after the athlete identity lookup). -/

/-- The `first_date` of the day-one block (lines 172-181): the completion
dates query selects the distinct completion dates ordered ascending (Postgres
places NULL last), and the code takes the first when the list is nonempty
(`if completion_dates:`).  The outer `Option` is that emptiness test - `none`
means the athlete has no completions at all and the day-one block is skipped;
the inner `Option Int` is the nullable date itself: the minimum non-null date
when one exists, and NULL (`none`) when completions exist but every
`completed_at` is NULL. -/
def first_completion_date (comps : List TaskCompletion) : Option (Option Int) :=
  if comps.isEmpty then none
  else some ((comps.filterMap (·.completed_at)).min?)

/-- The completions of the first date (lines 182-194): those whose
`cast(completed_at, Date)` equals `first_date`.  When `first_date` is NULL,
SQLAlchemy renders the `== None` comparison as `IS NULL`, so the query
returns exactly the null-dated completions; the `completed_at == fd`
comparison below matches that for both a null and a non-null `first_date`. -/
def day_one_completions (comps : List TaskCompletion) : List TaskCompletion :=
  match first_completion_date comps with
  | none => []
  | some fd => comps.filter (fun c => c.completed_at == fd)

/-- The weight step of the day-one aggregation (lines 201-209): identical to
the session step except that the skill must also belong to the coach's
catalog (`sw.skill_id in all_user_skills`). -/
def day_one_sw_step (skill_ids : List Nat) (sb : List (Nat × ℚ)) (k : Nat)
    (acc2 : ℚ × ℚ) (sw : TaskSkillWeight) : ℚ × ℚ :=
  if skill_ids.contains sw.skill_id then sw_step sb k acc2 sw else acc2

/-- The contribution of one day-one completion (lines 198-209): completions
with `not comp.task` or `not comp.scores_breakdown` are skipped. -/
def day_one_comp_step (skill_ids : List Nat) (k : Nat) (acc : ℚ × ℚ)
    (c : TaskCompletion) : ℚ × ℚ :=
  match c.task, c.scores_breakdown with
  | some t, some sb =>
    if sb.isEmpty then acc
    else t.skill_weights.foldl (day_one_sw_step skill_ids sb k) acc
  | _, _ => acc

/-- The `skill_totals` accumulation of the day-one loop (lines 195-209). -/
def day_one_skill_totals (skill_ids : List Nat) (comps : List TaskCompletion)
    (k : Nat) : ℚ × ℚ :=
  comps.foldl (day_one_comp_step skill_ids k) (0, 0)

/-- The day-one score of skill `k` (lines 211-214): the rounded weighted
average when the weight sum is positive, else no entry (`None` in the
Python dict). -/
def day_one_score_opt (skill_ids : List Nat) (comps : List TaskCompletion)
    (k : Nat) : Option ℚ :=
  let d := day_one_skill_totals skill_ids (day_one_completions comps) k
  if 0 < d.2 then some (round2 (d.1 / d.2)) else none

/-- One entry of the progression report (`SkillScore` in
`src/analytics/schemas.py`). -/
structure SkillScore where
  skill_id : Nat
  skill_name : String
  average_score : ℚ
deriving DecidableEq

/-- The name of catalog skill `k` (`all_user_skills[skill_id]`). -/
def skill_name_of (skills : List (Nat × String)) (k : Nat) : String :=
  ((skills.find? (fun p => p.1 == k)).map (·.2)).getD ""

/-- Lookup `athlete_current_scores_map.get(skill_id, 0.0)` (lines 225-233). -/
def lookup_current (levels : List (Nat × ℚ)) (k : Nat) : Option ℚ :=
  (levels.find? (fun p => p.1 == k)).map (·.2)

/-- Embedding of `get_athlete_skill_progression` (lines 150-238) after the identity lookup:
`skills` is the coach's skill catalog in (id, name) pairs, `comps` the
athlete's completions (with `completed_at` as the completion date), `levels`
the athlete's persisted `(skill_id, current_score)` rows.  Returns the
`day_one` and `current` lists, both one entry per catalog skill sorted by
skill id, with 0.0 for missing values. -/
def get_athlete_skill_progression (skills : List (Nat × String))
    (comps : List TaskCompletion) (levels : List (Nat × ℚ)) :
    List SkillScore × List SkillScore :=
  if skills.isEmpty then ([], [])
  else
    let ids := sortAsc (fun k : Nat => (k : ℚ)) (dedupFirst (skills.map (·.1)))
    ( ids.map (fun k =>
        ⟨k, skill_name_of skills k,
          (day_one_score_opt (skills.map (·.1)) comps k).getD 0⟩),
      ids.map (fun k =>
        ⟨k, skill_name_of skills k, (lookup_current levels k).getD 0⟩) )

/-- Pairwise relations combine pointwise over one list. -/
theorem pairwise_and_of {R S : α → α → Prop} :
    ∀ l : List α, l.Pairwise R → l.Pairwise S →
      l.Pairwise (fun a b => R a b ∧ S a b) := by
  intro l
  induction l with
  | nil => intro _ _; exact List.Pairwise.nil
  | cons x xs ih =>
    intro hR hS
    rw [List.pairwise_cons] at hR hS ⊢
    exact ⟨fun a ha => ⟨hR.1 a ha, hS.1 a ha⟩, ih hR.2 hS.2⟩

/-- C7: for every individual, the progression report returns two lists,
day_one and current, each containing exactly one entry per skill in the cohort
catalog, both sorted ascending by skill_id; a skill untouched on the day-one
date has day_one score 0.0 (not null) and is still listed, and if the cohort
defines zero skills both lists are empty. -/
theorem C7_progression_lists (skills : List (Nat × String))
    (comps : List TaskCompletion) (levels : List (Nat × ℚ))
    (hnodup : (skills.map (·.1)).Nodup) :
    ((get_athlete_skill_progression skills comps levels).1.map (·.skill_id)
        = sortAsc (fun k : Nat => (k : ℚ)) (skills.map (·.1))
      ∧ (get_athlete_skill_progression skills comps levels).2.map (·.skill_id)
        = sortAsc (fun k : Nat => (k : ℚ)) (skills.map (·.1)))
    ∧ ((get_athlete_skill_progression skills comps levels).1.map (·.skill_id)).Pairwise (· < ·)
    ∧ (∀ k name, (k, name) ∈ skills →
        day_one_score_opt (skills.map (·.1)) comps k = none →
        (⟨k, skill_name_of skills k, 0⟩ : SkillScore)
          ∈ (get_athlete_skill_progression skills comps levels).1)
    ∧ (skills = [] → get_athlete_skill_progression skills comps levels = ([], [])) := by
  by_cases hempty : skills.isEmpty
  · have hnil : skills = [] := List.isEmpty_iff.mp hempty
    subst hnil
    refine ⟨⟨rfl, rfl⟩, ?_, ?_, fun _ => rfl⟩
    · simp [get_athlete_skill_progression]
    · intro k name hk
      cases hk
  · have hdedup : dedupFirst (skills.map (·.1)) = skills.map (·.1) :=
      dedupFirst_of_nodup _ hnodup
    have hfst1 : (get_athlete_skill_progression skills comps levels).1.map (·.skill_id)
        = sortAsc (fun k : Nat => (k : ℚ)) (skills.map (·.1)) := by
      simp only [get_athlete_skill_progression, if_neg hempty, hdedup, List.map_map]
      exact List.map_id _
    have hfst2 : (get_athlete_skill_progression skills comps levels).2.map (·.skill_id)
        = sortAsc (fun k : Nat => (k : ℚ)) (skills.map (·.1)) := by
      simp only [get_athlete_skill_progression, if_neg hempty, hdedup, List.map_map]
      exact List.map_id _
    refine ⟨⟨hfst1, hfst2⟩, ?_, ?_, fun h => absurd h (by simpa using hempty)⟩
    · rw [hfst1]
      have hperm := sortAsc_perm (fun k : Nat => (k : ℚ)) (skills.map (·.1))
      have hnodup2 : (sortAsc (fun k : Nat => (k : ℚ)) (skills.map (·.1))).Nodup :=
        hperm.nodup_iff.mpr hnodup
      have hle := sortAsc_pairwise (fun k : Nat => (k : ℚ)) (skills.map (·.1))
      refine (pairwise_and_of _ hnodup2 hle).imp ?_
      intro a b hab
      have h1 : (a : ℚ) ≤ b := hab.2
      have h2 : a ≠ b := hab.1
      have : (a : ℚ) ≠ (b : ℚ) := by exact_mod_cast h2
      have hlt : (a : ℚ) < (b : ℚ) := lt_of_le_of_ne h1 this
      exact_mod_cast hlt
    · intro k name hk hnone
      have hkid : k ∈ skills.map (·.1) := List.mem_map.mpr ⟨(k, name), hk, rfl⟩
      have hsortmem : k ∈ sortAsc (fun k : Nat => (k : ℚ)) (dedupFirst (skills.map (·.1))) := by
        rw [hdedup, mem_sortAsc]
        exact hkid
      simp only [get_athlete_skill_progression, if_neg hempty]
      refine List.mem_map.mpr ⟨k, hsortmem, ?_⟩
      rw [hnone]
      rfl

/-- Closed witness for C7: a two-skill catalog with no completions yields the
two sorted lists with day-one zeros. -/
theorem C7_progression_lists_witness :
    (⟨2, skill_name_of [(2, "shooting"), (1, "dribbling")] 2, 0⟩ : SkillScore)
      ∈ (get_athlete_skill_progression [(2, "shooting"), (1, "dribbling")] [] []).1 :=
  (C7_progression_lists [(2, "shooting"), (1, "dribbling")] [] [] (by decide)).2.2.1
    2 "shooting" (by decide) (by decide)

/-! ### C9: the weighted aggregation is total and never divides by zero. -/

/-- When the scores breakdown holds no score for skill `k`, folding a task's
weights adds nothing to `k`'s running pair. -/
theorem sw_fold_no_score (sb : List (Nat × ℚ)) (k : Nat) (hk : sbLookup sb k = none) :
    ∀ (sws : List TaskSkillWeight) (acc : ℚ × ℚ), sws.foldl (sw_step sb k) acc = acc := by
  intro sws
  induction sws with
  | nil => intro acc; rfl
  | cons sw rest ih =>
    intro acc
    rw [List.foldl_cons]
    have hstep : sw_step sb k acc sw = acc := by
      unfold sw_step
      by_cases hsw : sw.skill_id = k
      · rw [hsw, hk]
      · cases hl : sbLookup sb sw.skill_id with
        | none => rfl
        | some score => simp [hsw]
    rw [hstep, ih]

/-- C9: the weighted per-session aggregation never raises and never divides by
zero on any input (in this model: every function is total, and the division
behind a produced average always has a positive weight sum); an event missing
a score for skill S, or missing its attached task (or its scores breakdown),
is skipped for S with no error; and a skill whose accumulated weight sum is 0
contributes no value (it is absent from the per-session and day-one maps, not
reported as zero).  This covers both the EMA aggregation (service.py lines
284-303) and the day-one aggregation (lines 195-214). -/
theorem C9_aggregation_safety :
    (∀ (comps : List TaskCompletion) (k : Nat),
      (session_skill_totals comps k).2 = 0 → session_skill_avg comps k = none)
    ∧ (∀ (comps : List TaskCompletion) (k : Nat) (v : ℚ),
      session_skill_avg comps k = some v → 0 < (session_skill_totals comps k).2)
    ∧ (∀ (k : Nat) (acc : ℚ × ℚ) (c : TaskCompletion),
      c.task = none ∨ c.scores_breakdown = none → session_comp_step k acc c = acc)
    ∧ (∀ (k : Nat) (acc : ℚ × ℚ) (c : TaskCompletion) (sb : List (Nat × ℚ)),
      c.scores_breakdown = some sb → sbLookup sb k = none →
      session_comp_step k acc c = acc)
    ∧ (∀ (ids : List Nat) (comps : List TaskCompletion) (k : Nat),
      (day_one_skill_totals ids (day_one_completions comps) k).2 = 0 →
      day_one_score_opt ids comps k = none)
    ∧ (∀ (ids : List Nat) (comps : List TaskCompletion) (k : Nat) (v : ℚ),
      day_one_score_opt ids comps k = some v →
      0 < (day_one_skill_totals ids (day_one_completions comps) k).2)
    ∧ (∀ (ids : List Nat) (k : Nat) (acc : ℚ × ℚ) (c : TaskCompletion),
      c.task = none ∨ c.scores_breakdown = none → day_one_comp_step ids k acc c = acc) := by
  refine ⟨?_, ?_, ?_, ?_, ?_, ?_, ?_⟩
  · intro comps k h
    unfold session_skill_avg
    rw [if_neg]
    rw [h]
    exact lt_irrefl 0
  · intro comps k v h
    unfold session_skill_avg at h
    by_cases hpos : 0 < (session_skill_totals comps k).2
    · exact hpos
    · rw [if_neg hpos] at h
      cases h
  · intro k acc c h
    unfold session_comp_step
    rcases h with h | h
    · rw [h]
    · rw [h]
      cases c.task with
      | none => rfl
      | some t => rfl
  · intro k acc c sb hsb hk
    unfold session_comp_step
    rw [hsb]
    cases c.task with
    | none => rfl
    | some t =>
      by_cases hemp : sb.isEmpty
      · simp [hemp]
      · simp [hemp, sw_fold_no_score sb k hk]
  · intro ids comps k h
    unfold day_one_score_opt
    rw [if_neg]
    rw [h]
    exact lt_irrefl 0
  · intro ids comps k v h
    unfold day_one_score_opt at h
    by_cases hpos : 0 < (day_one_skill_totals ids (day_one_completions comps) k).2
    · exact hpos
    · rw [if_neg hpos] at h
      cases h
  · intro ids k acc c h
    unfold day_one_comp_step
    rcases h with h | h
    · rw [h]
    · rw [h]
      cases c.task with
      | none => rfl
      | some t => rfl

/-- Closed witness for C9: a completion with no attached task contributes
nothing, and an all-missing session yields no average. -/
theorem C9_aggregation_safety_witness :
    session_comp_step 1 (0, 0) ⟨1, some 1, none, some [(1, 80)], 0⟩ = (0, 0)
    ∧ session_skill_avg [] 1 = none :=
  ⟨C9_aggregation_safety.2.2.1 1 (0, 0) ⟨1, some 1, none, some [(1, 80)], 0⟩ (Or.inl rfl),
   C9_aggregation_safety.1 [] 1 rfl⟩

/-! ## The leaderboard
(`get_leaderboard_data`, `_calculate_day_one_average_score`,
`_calculate_improvement_slope`, `src/analytics/service.py` lines 726-833). -/

/-- Python `np.mean` over a list of rationals. -/
def mean (l : List ℚ) : ℚ := l.sum / (l.length : ℚ)

/-- An active athlete as the leaderboard reads it: a uuid (modelled as a
number), the persisted `current_score` values of `athlete.skill_levels`, and
the completion history (`completed_at` modelled as the completion date). -/
structure AthleteRec where
  uuid : Nat
  skill_levels : List ℚ
  completions : List TaskCompletion
deriving DecidableEq

/-- Embedding of `_calculate_day_one_average_score` (lines 726-748), leading underscore
dropped: the mean of the final scores on the earliest non-null completion
date, 0.0 when there is none.  (The declared `float | None` return type never
produces `None`: both branches return a number, so the model returns `ℚ`.) -/
def calculate_day_one_average_score (comps : List TaskCompletion) : ℚ :=
  match (comps.filterMap (·.completed_at)).min? with
  | none => 0
  | some d =>
    let day_one_scores := (comps.filter (fun c => c.completed_at == some d)).map (·.final_score)
    if day_one_scores.isEmpty then 0 else mean day_one_scores

/-- Embedding of `_calculate_improvement_slope` (lines 751-778), leading underscore
dropped: the ordinary-least-squares slope of per-date mean final scores over
x = 0, 1, ..., n−1, rounded to 2 decimals; 0.0 with fewer than 2 completions
or fewer than 2 distinct dates.  With n ≥ 2 distinct x values the OLS
denominator is positive, so the `isnan` guard of the Python code cannot fire
and is not modelled. -/
def calculate_improvement_slope (comps : List TaskCompletion) : ℚ :=
  if comps.length < 2 then 0
  else
    let dated := comps.filter (fun c => c.completed_at.isSome)
    let dates := sortAsc (fun d : Int => (d : ℚ))
      (dedupFirst (dated.filterMap (·.completed_at)))
    if dates.length < 2 then 0
    else
      let avg_scores := dates.map (fun d =>
        mean ((dated.filter (fun c => c.completed_at == some d)).map (·.final_score)))
      let xs : List ℚ := (List.range dates.length).map (fun i => (i : ℚ))
      let xbar := mean xs
      let ybar := mean avg_scores
      let sxy := ((xs.zip avg_scores).map (fun p => (p.1 - xbar) * (p.2 - ybar))).sum
      let sxx := (xs.map (fun x => (x - xbar) ^ 2)).sum
      round2 (sxy / sxx)

/-- One leaderboard row before ranking (the dict built at lines 808-820). -/
structure LeaderboardEntry where
  uuid : Nat
  current_score : ℚ
  improvement_since_day_one : ℚ
  improvement_slope : ℚ
deriving DecidableEq

/-- The per-athlete rows of `get_leaderboard_data` (lines 789-820):
`current_score` is the mean of the persisted skill scores (0.0 if none), and
since the day-one helper never returns `None`, `improvement_since_day_one`
is always `current − day_one`. -/
def leaderboard_rows (athletes : List AthleteRec) : List LeaderboardEntry :=
  athletes.map (fun a =>
    let current_avg_score := if a.skill_levels.isEmpty then 0 else mean a.skill_levels
    ⟨a.uuid, current_avg_score,
      current_avg_score - calculate_day_one_average_score a.completions,
      calculate_improvement_slope a.completions⟩)

/-- Embedding of `get_leaderboard_data` (lines 781-833) after the roster query: sort the
rows descending by `current_score` (Python `sorted(..., reverse=True)` -
stable, modelled by the ascending stable sort on the negated key) and attach
rank i+1 to the i-th row. -/
def get_leaderboard_data (athletes : List AthleteRec) : List (Nat × LeaderboardEntry) :=
  let sorted_leaderboard :=
    sortAsc (fun e => -(e.current_score)) (leaderboard_rows athletes)
  (sorted_leaderboard.enum).map (fun p => (p.1 + 1, p.2))

/-- Ranks attached by enumeration are 1, 2, ..., n in order. -/
theorem enum_rank_map : ∀ (l : List LeaderboardEntry) (i : Nat),
    ((List.enumFrom i l).map (fun p => (p.1 + 1, p.2))).map (·.1)
      = List.range' (i + 1) l.length := by
  intro l
  induction l with
  | nil => intro i; rfl
  | cons e rest ih =>
    intro i
    simp only [List.enumFrom, List.map_cons, List.length_cons, List.range'_succ]
    exact congrArg (List.cons (i + 1)) (ih (i + 1))

/-- Enumeration then projection returns the original list. -/
theorem enum_rank_map_snd : ∀ (l : List LeaderboardEntry) (i : Nat),
    ((List.enumFrom i l).map (fun p => (p.1 + 1, p.2))).map (·.2) = l := by
  intro l
  induction l with
  | nil => intro i; rfl
  | cons e rest ih =>
    intro i
    simp only [List.enumFrom, List.map_cons]
    exact congrArg (List.cons e) (ih (i + 1))

/-- Every element of a list receives some rank between i+1 and i+length. -/
theorem enum_rank_mem : ∀ (l : List LeaderboardEntry) (i : Nat) (x : LeaderboardEntry),
    x ∈ l → ∃ p ∈ (List.enumFrom i l).map (fun p => (p.1 + 1, p.2)),
      p.2 = x ∧ i + 1 ≤ p.1 ∧ p.1 ≤ i + l.length := by
  intro l
  induction l with
  | nil => intro i x hx; cases hx
  | cons e rest ih =>
    intro i x hx
    rcases List.mem_cons.mp hx with rfl | hx
    · refine ⟨(i + 1, x), List.mem_cons_self _ _, rfl, le_refl _, ?_⟩
      simp only [List.length_cons]
      omega
    · obtain ⟨p, hp, hpx, hlo, hhi⟩ := ih (i + 1) x hx
      refine ⟨p, List.mem_cons_of_mem _ hp, hpx, by omega, ?_⟩
      simp only [List.length_cons]
      omega

/-- The 95-scorer of the leaderboard regression example. -/
def athlete95 : AthleteRec := ⟨1, [95], []⟩

/-- The 85-scorer of the leaderboard regression example. -/
def athlete85 : AthleteRec := ⟨2, [85], []⟩

/-- The 75-scorer of the leaderboard regression example. -/
def athlete75 : AthleteRec := ⟨3, [75], []⟩

/-- C6: for every list of individuals with computed current scores, the
leaderboard output is sorted descending by current_score with ranks assigned
1..n consecutively in that order, ties keeping the individuals' input order
(stable sort: filtering the output at any score value returns exactly the
input-order rows at that value); three individuals scoring 95/85/75 receive
ranks 1/2/3 in that exact order regardless of input order. -/
theorem C6_leaderboard_ranking :
    (∀ athletes : List AthleteRec,
      (get_leaderboard_data athletes).map (·.1) = List.range' 1 athletes.length
      ∧ ((get_leaderboard_data athletes).map (·.2)).Pairwise
          (fun x y => y.current_score ≤ x.current_score)
      ∧ (∀ c : ℚ,
          ((get_leaderboard_data athletes).map (·.2)).filter
              (fun e => e.current_score == c)
            = (leaderboard_rows athletes).filter (fun e => e.current_score == c)))
    ∧ (∀ athletes ∈
        [ [athlete95, athlete85, athlete75], [athlete95, athlete75, athlete85],
          [athlete85, athlete95, athlete75], [athlete85, athlete75, athlete95],
          [athlete75, athlete95, athlete85], [athlete75, athlete85, athlete95] ],
        (get_leaderboard_data athletes).map (fun p => (p.1, p.2.uuid))
          = [(1, 1), (2, 2), (3, 3)]) := by
  constructor
  · intro athletes
    have hlen : (sortAsc (fun e => -(e.current_score)) (leaderboard_rows athletes)).length
        = athletes.length := by
      rw [(sortAsc_perm _ _).length_eq]
      simp [leaderboard_rows]
    refine ⟨?_, ?_, ?_⟩
    · show ((List.enumFrom 0 _).map (fun p => (p.1 + 1, p.2))).map (·.1) = _
      rw [enum_rank_map, hlen]
    · show (((List.enumFrom 0 _).map (fun p => (p.1 + 1, p.2))).map (·.2)).Pairwise _
      rw [enum_rank_map_snd]
      refine (sortAsc_pairwise (fun e => -(e.current_score)) (leaderboard_rows athletes)).imp ?_
      intro a b hab
      exact neg_le_neg_iff.mp hab
    · intro c
      show (((List.enumFrom 0 _).map (fun p => (p.1 + 1, p.2))).map (·.2)).filter _ = _
      rw [enum_rank_map_snd, ← sortAsc_filter]
      refine sortAsc_of_const_key _ (-c) _ ?_
      intro a ha
      have := (List.mem_filter.mp ha).2
      have heq : a.current_score = c := by simpa using this
      rw [heq]
  · intro athletes hmem
    simp only [List.mem_cons, List.not_mem_nil, or_false] at hmem
    rcases hmem with rfl | rfl | rfl | rfl | rfl | rfl <;>
      · norm_num [get_leaderboard_data, leaderboard_rows, athlete95, athlete85, athlete75,
          mean, calculate_day_one_average_score, calculate_improvement_slope,
          sortAsc, insAsc, List.enum, List.enumFrom]

/-- Closed witness for C6: one of the six input orders, ranked. -/
theorem C6_leaderboard_ranking_witness :
    (get_leaderboard_data [athlete85, athlete95, athlete75]).map (fun p => (p.1, p.2.uuid))
      = [(1, 1), (2, 2), (3, 3)] :=
  C6_leaderboard_ranking.2 [athlete85, athlete95, athlete75] (by decide)

/-- C10: the leaderboard contains exactly one entry for every active
individual of the cohort, including individuals with zero persisted skill
score records: the ranks are a permutation pairing of the input athletes, and
such an individual (with no completions) gets current_score 0.0, day-one
score 0.0, improvement_since_day_one 0.0, and is still ranked among the rest
(some rank between 1 and n). -/
theorem C10_leaderboard_includes_everyone (athletes : List AthleteRec) :
    ((get_leaderboard_data athletes).map (fun p => p.2.uuid)).Perm
        (athletes.map (·.uuid))
    ∧ (get_leaderboard_data athletes).length = athletes.length
    ∧ (∀ a ∈ athletes, a.skill_levels = [] → a.completions = [] →
        calculate_day_one_average_score a.completions = 0
        ∧ ∃ p ∈ get_leaderboard_data athletes,
            p.2.uuid = a.uuid ∧ p.2.current_score = 0
            ∧ p.2.improvement_since_day_one = 0
            ∧ 1 ≤ p.1 ∧ p.1 ≤ athletes.length) := by
  have hlen : (sortAsc (fun e => -(e.current_score)) (leaderboard_rows athletes)).length
      = athletes.length := by
    rw [(sortAsc_perm _ _).length_eq]
    simp [leaderboard_rows]
  have hform : get_leaderboard_data athletes
      = (List.enumFrom 0 (sortAsc (fun e => -(e.current_score))
          (leaderboard_rows athletes))).map (fun p => (p.1 + 1, p.2)) := rfl
  refine ⟨?_, ?_, ?_⟩
  · rw [hform]
    have hmm : ((List.enumFrom 0 (sortAsc (fun e => -(e.current_score))
          (leaderboard_rows athletes))).map (fun p => (p.1 + 1, p.2))).map (fun p => p.2.uuid)
        = (((List.enumFrom 0 (sortAsc (fun e => -(e.current_score))
          (leaderboard_rows athletes))).map (fun p => (p.1 + 1, p.2))).map (·.2)).map (·.uuid) := by
      simp only [List.map_map]
      rfl
    rw [hmm, enum_rank_map_snd]
    have hperm := (sortAsc_perm (fun e => -(e.current_score)) (leaderboard_rows athletes)).map
      (fun e => e.uuid)
    refine hperm.trans ?_
    rw [leaderboard_rows, List.map_map]
    exact List.Perm.refl _
  · rw [hform, List.length_map, List.enumFrom_length, hlen]
  · intro a ha hlvl hcomp
    have hday : calculate_day_one_average_score a.completions = 0 := by
      rw [hcomp]
      rfl
    refine ⟨hday, ?_⟩
    have hrow : (⟨a.uuid,
        (if a.skill_levels.isEmpty then 0 else mean a.skill_levels : ℚ),
        (if a.skill_levels.isEmpty then 0 else mean a.skill_levels : ℚ)
          - calculate_day_one_average_score a.completions,
        calculate_improvement_slope a.completions⟩ : LeaderboardEntry)
        = ⟨a.uuid, 0, 0, 0⟩ := by
      rw [hcomp, hlvl]
      norm_num [calculate_day_one_average_score, calculate_improvement_slope]
    have hmem : (⟨a.uuid, 0, 0, 0⟩ : LeaderboardEntry) ∈ leaderboard_rows athletes := by
      unfold leaderboard_rows
      refine List.mem_map.mpr ⟨a, ha, ?_⟩
      exact hrow
    have hmem2 : (⟨a.uuid, 0, 0, 0⟩ : LeaderboardEntry)
        ∈ sortAsc (fun e => -(e.current_score)) (leaderboard_rows athletes) :=
      (mem_sortAsc _ _ _).mpr hmem
    obtain ⟨p, hp, hpx, hlo, hhi⟩ := enum_rank_mem _ 0 _ hmem2
    refine ⟨p, hp, ?_, ?_, ?_, by omega, ?_⟩
    · rw [hpx]
    · rw [hpx]
    · rw [hpx]
    · rw [hlen] at hhi
      omega

/-- Closed witness for C10: a roster with one scoreless athlete still ranks
that athlete, with zeros everywhere. -/
theorem C10_leaderboard_includes_everyone_witness :
    calculate_day_one_average_score (AthleteRec.mk 7 [] []).completions = 0
    ∧ ∃ p ∈ get_leaderboard_data [⟨7, [], []⟩],
        p.2.uuid = 7 ∧ p.2.current_score = 0
        ∧ p.2.improvement_since_day_one = 0
        ∧ 1 ≤ p.1 ∧ p.1 ≤ ([⟨7, [], []⟩] : List AthleteRec).length :=
  (C10_leaderboard_includes_everyone [⟨7, [], []⟩]).2.2
    ⟨7, [], []⟩ (List.mem_cons_self _ _) rfl rfl


end CoachCall
